import Mathlib

/-!
# GoTrainings: conditionals exercises and the escape-classification engine

Two developments:

* `Conditionals` embeds the ticket-price, vowel and banking blocks of
  `Assignments/Day6/conditionals.go`, with the hard-coded literals turned
  into inputs and `float64` read as exact rationals.
* `Escape` models the escape-classification engine described by the
  specification (IR, flow-graph builder, size policy, worklist solver,
  classifier and reporter).  `Codes/Day4/07_EscapeAnalysis/escape.go` holds
  only the example functions and the diagnostic vocabulary; the engine itself
  is modelled from the specification.
-/

namespace Conditionals

/-- Values left behind by the ticket block (conditionals.go lines 121-141):
`finalPrice` is the value handed to the closing `Printf`, `basePrice` the
local it was meant to be copied from, `output` the lines printed before. -/
structure TicketResult where
  finalPrice : ℚ
  basePrice : ℚ
  output : List String
  deriving DecidableEq

/-- Ticket price block, conditionals.go lines 121-141, with `age`, `dayType`
and `isStudent` as inputs.  `basePrice` starts at 10 and `finalPrice` at the
zero value of `float64`; only the last `else` branch assigns `finalPrice`. -/
def ticketPrice (age : Int) (dayType : String) (isStudent : Bool) : TicketResult :=
  let basePrice : ℚ := 10
  let finalPrice : ℚ := 0
  let basePrice :=
    if age < 12 then basePrice * (5 / 10)
    else if age ≥ 65 then basePrice * (7 / 10)
    else if age ≥ 12 ∧ age ≤ 65 ∧ isStudent = true ∧ dayType = "weekday" then
      basePrice * (8 / 10)
    else basePrice
  if dayType = "weekend" then
    { finalPrice := finalPrice, basePrice := basePrice + 2, output := [] }
  else if dayType ≠ "weekday" then
    { finalPrice := finalPrice, basePrice := basePrice, output := ["Invalid day type"] }
  else
    { finalPrice := basePrice, basePrice := basePrice, output := [] }

/-- Vowel switch, conditionals.go lines 100-106, with `x` as input: one case
listing the ten vowels, and a `default` that prints "Not a letter". -/
def vowelChecker (x : String) : String :=
  if x ∈ ["a", "e", "i", "o", "u", "A", "E", "I", "O", "U"] then "Vowel"
  else "Not a letter"

/-- One `fmt.Println` call of the banking block: a bare message, or a label
followed by a balance. -/
inductive Line where
  | text (s : String)
  | balance (label : String) (value : ℚ)
  deriving DecidableEq

/-- Balances and printed lines after the transaction switch. -/
structure BankState where
  accountA : ℚ
  accountB : ℚ
  output : List Line
  deriving DecidableEq

/-- Transaction switch, conditionals.go lines 179-211, with the two balances,
the transaction name and the amount as inputs. -/
def bankingTransaction (accountA accountB : ℚ) (transaction : String) (amount : ℚ) :
    BankState :=
  let tx := transaction
  if tx = "deposit" then
    { accountA := accountA + amount, accountB := accountB,
      output := [.text "Deposit successful.", .balance "Updated Balance:" (accountA + amount)] }
  else if tx = "withdraw" then
    if amount ≤ accountA then
      { accountA := accountA - amount, accountB := accountB,
        output := [.text "Withdrawal successful.",
                   .balance "Updated Balance:" (accountA - amount)] }
    else
      { accountA := accountA, accountB := accountB, output := [.text "Insufficient balance."] }
  else if tx = "balance" then
    { accountA := accountA, accountB := accountB,
      output := [.balance "Current Balance:" accountA] }
  else if tx = "transfer" then
    if amount ≤ accountA then
      { accountA := accountA - amount, accountB := accountB + amount,
        output := [.text "Transfer successful.",
                   .balance "AccountA Balance:" (accountA - amount),
                   .balance "AccountB Balance:" (accountB + amount)] }
    else
      { accountA := accountA, accountB := accountB,
        output := [.text "Insufficient balance for transfer."] }
  else
    { accountA := accountA, accountB := accountB, output := [.text "Invalid operation"] }

end Conditionals

namespace Escape

/-! ## Data model (spec section 3) -/

/-- Modelled from the spec: the categories of escape sink.  Section 3 lists
the caller, the global namespace, a container outside local control, an
interface box and a concurrent task; section 4.2 also routes captures to
`Sink(Closure)`.  The engine is absent from the sources, which hold only the
example functions. -/
inductive SinkKind where
  | Caller | Global | Container | Box | Task | Closure
  deriving DecidableEq, Repr

/-- Modelled from the spec: the fixed, process-wide sinks, in the order in
which section 3 names them, followed by the closure sink of section 4.2.
The solver's worklist is initialised in this order. -/
def allSinks : List SinkKind :=
  [.Caller, .Global, .Container, .Box, .Task, .Closure]

/-- Modelled from the spec: declared shape of an allocation site (scalar,
fixed-size aggregate with known byte size, or unbounded container). -/
inductive Shape where
  | scalar
  | aggregate (bytes : Nat)
  | container
  deriving DecidableEq, Repr

/-- Modelled from the spec: the classification lattice of a site, `Unknown`
initially. -/
inductive Classification where
  | Unknown | Stack | Heap | Indeterminate
  deriving DecidableEq, Repr

/-- Modelled from the spec: the reason attached to a verdict: none for a
site that stays on the stack, the sink category that marked the site, or the
size policy's `LargeObject`. -/
inductive Reason where
  | NotEscaping
  | Sink (k : SinkKind)
  | LargeObject
  deriving DecidableEq, Repr

/-- Modelled from the spec: an operand.  It is the value held at a site, the
value produced by `AddressOf(site)`, or a closure. -/
inductive Value where
  | site (s : String)
  | addressOf (s : String)
  | closure (c : String)
  deriving DecidableEq, Repr

/-- Modelled from the spec: the operations of section 3, read-only facts fed
to the builder.  `AddressOf site` records that an address is taken; an
operand that is this value is written `Value.addressOf site`. -/
inductive Operation where
  | Assign (src dst : String)
  | AddressOf (site : String)
  | Call (callee : String) (args : List Value) (recv : Option String)
  | Return (value : Value)
  | ClosureCapture (closure : String) (site : String)
  | TaskSpawn (closure : String)
  | ContainerStore (container : String) (value : Value)
  | InterfaceConvert (value : Value)
  | FieldStore (target : String) (field : String) (value : Value)
  deriving DecidableEq, Repr

/-- Modelled from the spec: a parameter or local declaration of the IR, with
its shape metadata and source location. -/
structure Decl where
  name : String
  shape : Shape
  location : Nat
  deriving DecidableEq, Repr

/-- Modelled from the spec: a function of the IR, with its declarations in
order and its ordered operation list. -/
structure Function where
  name : String
  params : List Decl
  locals : List Decl
  ops : List Operation
  deriving DecidableEq, Repr

/-- Modelled from the spec: the whole-program IR, functions in declaration
order. -/
structure Program where
  functions : List Function
  deriving DecidableEq, Repr

/-- Modelled from the spec: a node of the flow graph: an allocation site of
a function, a closure of a function, or a sink. -/
inductive Node where
  | site (fn : String) (id : String)
  | closure (fn : String) (id : String)
  | sink (k : SinkKind)
  deriving DecidableEq, Repr

/-- Modelled from the spec: a flow edge `src -> dst`.  The edges that the
builder table emits only "if" some site "is later found (by the solver) to
escape" carry that site as `guard`; the solver resolves them. -/
structure FlowEdge where
  src : Node
  dst : Node
  guard : Option Node
  deriving DecidableEq, Repr

/-- Modelled from the spec: the single configuration option, the large-object
threshold in bytes. -/
structure Config where
  large_object_bytes : Nat
  deriving DecidableEq, Repr

/-- Modelled from the spec: the default threshold, 10 KiB. -/
def defaultConfig : Config := { large_object_bytes := 10240 }

/-- Modelled from the spec: an allocation site during the analysis pass:
identifier, owning function, declared shape and the classification with its
reason. -/
structure AllocationSite where
  id : String
  owner : String
  shape : Shape
  isParam : Bool
  location : Nat
  classification : Classification
  reason : Reason
  deriving DecidableEq, Repr

/-- Modelled from the spec: the fatal error kinds of section 7. -/
inductive AnalysisError where
  | MalformedIR
  | UnknownSite (id : String)
  | AnalysisDivergence
  deriving DecidableEq, Repr

/-- Modelled from the spec: one per-site diagnostic of the report (section 6)
with the message of section 4.5. -/
structure Diagnostic where
  function_name : String
  site_name : String
  classification : Classification
  reason : Reason
  source_location : Nat
  message : String
  deriving DecidableEq, Repr

/-! ## IR model (spec section 4.1) -/

/-- Modelled from the spec: the site an operand refers to, if any. -/
def valueSites : Value → List String
  | .site s => [s]
  | .addressOf s => [s]
  | .closure _ => []

/-- Modelled from the spec: the site ids an operation references. -/
def referencedSites : Operation → List String
  | .Assign src dst => [src, dst]
  | .AddressOf s => [s]
  | .Call _ args recv => args.flatMap valueSites ++ recv.toList
  | .Return v => valueSites v
  | .ClosureCapture _ s => [s]
  | .TaskSpawn _ => []
  | .ContainerStore c v => c :: valueSites v
  | .InterfaceConvert v => valueSites v
  | .FieldStore t _ v => t :: valueSites v

/-- Modelled from the spec: the names a function declares, parameters first. -/
def declaredNames (f : Function) : List String :=
  (f.params ++ f.locals).map (fun d => d.name)

/-- Modelled from the spec: structural well-formedness of one function: every
referenced site id is declared in its owning function. -/
def wellFormedFunction (f : Function) : Bool :=
  f.ops.all (fun op => (referencedSites op).all (fun s => decide (s ∈ declaredNames f)))

/-- Modelled from the spec: structural well-formedness of the program IR
(section 4.1); a program failing it is rejected with `MalformedIR`. -/
def wellFormed (p : Program) : Bool :=
  p.functions.all wellFormedFunction

/-! ## Flow graph builder (spec section 4.2) -/

/-- Modelled from the spec: an unconditional flow edge. -/
def plainEdge (u v : Node) : FlowEdge := { src := u, dst := v, guard := none }

/-- Modelled from the spec: a flow edge `u -> v` emitted only if `w` is found
to escape. -/
def guardedEdge (u v w : Node) : FlowEdge := { src := u, dst := v, guard := some w }

/-- Modelled from the spec: the node an operand's value lives at. -/
def rootOf (fn : String) : Value → Node
  | .site s => .site fn s
  | .addressOf s => .site fn s
  | .closure c => .closure fn c

/-- Modelled from the spec: whether a closure "itself is returned or
spawned" by the function's operations. -/
def closureEscapes (ops : List Operation) (c : String) : Bool :=
  ops.any (fun o => decide (o = .Return (.closure c)) || decide (o = .TaskSpawn c))

/-- Modelled from the spec: the sites routed to closure `c` by a capture
among `ops`. -/
def capturedBy (ops : List Operation) (c : String) : List String :=
  ops.filterMap (fun o =>
    match o with
    | .ClosureCapture c' s => if c' = c then some s else none
    | _ => none)

/-- Modelled from the spec: the sites into which the value held at `r` is
stored among `ops`. -/
def storedInto (ops : List Operation) (r : String) : List String :=
  ops.filterMap (fun o =>
    match o with
    | .ContainerStore t v => if v = .site r then some t else none
    | .FieldStore t _ v => if v = .site r then some t else none
    | _ => none)

/-- Modelled from the spec: the edge table of section 4.2 for one operation
of function `f`, given the operations before and after it. -/
def edgesOfOp (p : Program) (f : Function) (before after : List Operation) :
    Operation → List FlowEdge
  | .Assign src dst => [plainEdge (.site f.name src) (.site f.name dst)]
  | .AddressOf _ => []
  | .Return (.addressOf s) => [plainEdge (.site f.name s) (.sink .Caller)]
  | .Return _ => []
  | .Call callee args recv =>
      (match p.functions.find? (fun g => decide (g.name = callee)) with
        | some g =>
            (args.zip g.params).map (fun ap =>
              guardedEdge (rootOf f.name ap.1) (.sink .Caller) (.site g.name ap.2.name))
        | none => [])
      ++
      (match recv with
        | some r =>
            (if Operation.Return (.site r) ∈ after
              then [plainEdge (.site f.name r) (.sink .Caller)] else [])
            ++ (storedInto after r).map (fun t =>
                  guardedEdge (.site f.name r) (.sink .Caller) (.site f.name t))
        | none => [])
  | .ClosureCapture c s =>
      if closureEscapes f.ops c then [plainEdge (.site f.name s) (.sink .Closure)]
      else [plainEdge (.site f.name s) (.closure f.name c)]
  | .TaskSpawn c =>
      (capturedBy before c).map (fun s => plainEdge (.site f.name s) (.sink .Task))
  | .ContainerStore c v =>
      [plainEdge (rootOf f.name v) (.site f.name c),
       guardedEdge (rootOf f.name v) (.sink .Container) (.site f.name c)]
  | .InterfaceConvert v => [plainEdge (rootOf f.name v) (.sink .Box)]
  | .FieldStore t _ v => [plainEdge (rootOf f.name v) (.site f.name t)]

/-- Modelled from the spec: the builder's walk over an operation list, in
order, carrying the operations already seen. -/
def walkOps (p : Program) (f : Function) : List Operation → List Operation → List FlowEdge
  | _, [] => []
  | before, op :: rest =>
      edgesOfOp p f before rest op ++ walkOps p f (before ++ [op]) rest

/-- Modelled from the spec: the flow edges of one function. -/
def buildFunction (p : Program) (f : Function) : List FlowEdge :=
  walkOps p f [] f.ops

/-- Modelled from the spec: the builder's failure, the first referenced site
that its function does not declare (`UnknownSite`). -/
def firstUnknownSite (p : Program) : Option String :=
  p.functions.findSome? (fun f =>
    (f.ops.flatMap referencedSites).find? (fun s => decide (s ∉ declaredNames f)))

/-- Modelled from the spec: the merged whole-program flow graph, with
duplicate edges removed (set semantics). -/
def buildGraph (p : Program) : List FlowEdge :=
  (p.functions.flatMap (buildFunction p)).dedup

/-! ## Size policy (spec section 4.3) -/

/-- Modelled from the spec: the size policy marks a fixed-size aggregate
"exceeding" the byte threshold; scalars and unbounded containers are never
classified by size. -/
def sizeVerdict (cfg : Config) : Shape → Bool
  | .aggregate bytes => decide (cfg.large_object_bytes < bytes)
  | _ => false

/-- Modelled from the spec: the allocation sites of the program, by function
declaration order and then declaration order within the function, all
`Unknown` at creation. -/
def createSites (p : Program) : List AllocationSite :=
  p.functions.flatMap (fun f =>
    f.params.map (fun d =>
      { id := d.name, owner := f.name, shape := d.shape, isParam := true,
        location := d.location, classification := .Unknown, reason := .NotEscaping })
    ++ f.locals.map (fun d =>
      { id := d.name, owner := f.name, shape := d.shape, isParam := false,
        location := d.location, classification := .Unknown, reason := .NotEscaping }))

/-- Modelled from the spec: the size policy annotates a site: a large
aggregate "is marked `Heap` immediately with reason `LargeObject`,
regardless of solver outcome". -/
def sizePolicy (cfg : Config) (s : AllocationSite) : AllocationSite :=
  if sizeVerdict cfg s.shape then { s with classification := .Heap, reason := .LargeObject }
  else s

/-! ## Escape solver (spec section 4.4) -/

/-- Modelled from the spec: the escaping marks, each with the sink category
that marked the node, in marking order. -/
abbrev Marks := List (Node × SinkKind)

/-- Modelled from the spec: the sink category that first marked a node, or
`none` if the node is not marked escaping. -/
def reasonOf : Marks → Node → Option SinkKind
  | [], _ => none
  | (m, r) :: rest, n => if m = n then some r else reasonOf rest n

/-- Modelled from the spec: an edge is present once its guard, if it has
one, is marked escaping. -/
def guardOk (marks : Marks) (e : FlowEdge) : Bool :=
  match e.guard with
  | none => true
  | some w => (reasonOf marks w).isSome

/-- Modelled from the spec: the solver state, a worklist and the marks. -/
structure SolverState where
  work : List Node
  marks : Marks
  deriving DecidableEq, Repr

/-- Modelled from the spec: when node `v` is popped, edge `e` marks its
source if the source is not yet marked, the edge hangs on `v` (as target or
as guard), and its target and guard are marked; the source inherits the
category of the target. -/
def fires (marks : Marks) (v : Node) (e : FlowEdge) : Option SinkKind :=
  if (reasonOf marks e.src).isNone ∧ (e.dst = v ∨ e.guard = some v) ∧ guardOk marks e = true
  then reasonOf marks e.dst else none

/-- Modelled from the spec: "for every edge `u -> v` where `v` is marked
escaping and `u` is not, mark `u` escaping and push `u`". -/
def relax (v : Node) : List FlowEdge → SolverState → SolverState
  | [], st => st
  | e :: es, st =>
      match fires st.marks v e with
      | some r => relax v es { work := st.work ++ [e.src], marks := st.marks ++ [(e.src, r)] }
      | none => relax v es st

/-- Modelled from the spec: the worklist loop, "repeatedly pop a node" until
the worklist is empty, under the defensive maximum-iteration guard; `none`
stands for `AnalysisDivergence`. -/
def solveLoop (edges : List FlowEdge) : Nat → SolverState → Option Marks
  | _, ⟨[], marks⟩ => some marks
  | 0, ⟨_ :: _, _⟩ => none
  | n + 1, ⟨v :: rest, marks⟩ => solveLoop edges n (relax v edges ⟨rest, marks⟩)

/-- Modelled from the spec: "initialize a worklist with all sink nodes marked
escaping". -/
def initialState : SolverState :=
  { work := allSinks.map Node.sink, marks := allSinks.map (fun k => (Node.sink k, k)) }

/-- Modelled from the spec: the maximum-iteration guard: one pop per sink
and at most one per edge. -/
def iterationBound (edges : List FlowEdge) : Nat :=
  allSinks.length + edges.length

/-- Modelled from the spec: whole-program backward reachability from the
sinks. -/
def solve (edges : List FlowEdge) : Option Marks :=
  solveLoop edges (iterationBound edges) initialState

/-! ## Classifier and reporter (spec section 4.5) -/

/-- Modelled from the spec: the final classification of a site, in the order
of the closing sentence of section 4.4: a site reachable to a sink is `Heap`
(via flow, with the sink category that first marked it); a site with a
size-policy verdict of `Heap` stays `Heap`; every remaining site is `Stack`.
For a site that is both over the size threshold and reachable to a sink the
spec names no precedence between the two reasons; the flow reason is
reported, as the return-of-address property of section 8 asks. -/
def classifySite (marks : Marks) (s : AllocationSite) : AllocationSite :=
  match reasonOf marks (.site s.owner s.id) with
  | some k => { s with classification := .Heap, reason := .Sink k }
  | none =>
      if s.classification = .Heap then s
      else { s with classification := .Stack, reason := .NotEscaping }

/-- Modelled from the spec: the diagnostic vocabulary.  The text after
"moved to heap: " is the site name, as in scenario 2 of section 8 and in the
sample output printed by `demonstrateChecks` (escape.go line 272). -/
def messageOf (s : AllocationSite) : String :=
  match s.classification, s.reason with
  | .Heap, .LargeObject => "large object, heap-allocated"
  | .Heap, .Sink .Caller =>
      if s.isParam then "leaking param: " ++ s.id else "moved to heap: " ++ s.id
  | .Heap, _ => "moved to heap: " ++ s.id
  | .Stack, _ => "does not escape"
  | _, _ => "indeterminate"

/-- Modelled from the spec: the report entry of a classified site. -/
def reportSite (s : AllocationSite) : Diagnostic :=
  { function_name := s.owner, site_name := s.id, classification := s.classification,
    reason := s.reason, source_location := s.location, message := messageOf s }

/-- Modelled from the spec: the pipeline of section 2 up to the classifier:
IR validation, builder, size policy, solver, classifier; all-or-nothing on
a fatal error. -/
def finalSites (cfg : Config) (p : Program) : Except AnalysisError (List AllocationSite) :=
  if wellFormed p = false then .error .MalformedIR
  else
    match firstUnknownSite p with
    | some id => .error (.UnknownSite id)
    | none =>
        match solve (buildGraph p) with
        | none => .error .AnalysisDivergence
        | some marks => .ok ((createSites p).map (fun s => classifySite marks (sizePolicy cfg s)))

/-- Modelled from the spec: the engine, a pure function from the IR to the
ordered per-site diagnostics. -/
def analyze (cfg : Config) (p : Program) : Except AnalysisError (List Diagnostic) :=
  (finalSites cfg p).map (fun sites => sites.map reportSite)

/-! ## IR of the walkthrough's example functions -/

/-- IR of `addNumbers` (escape.go lines 43-46): `result := a + b; return result`. -/
def addNumbers : Function :=
  { name := "addNumbers",
    params := [{ name := "a", shape := .scalar, location := 43 },
               { name := "b", shape := .scalar, location := 43 }],
    locals := [{ name := "result", shape := .scalar, location := 44 }],
    ops := [.Assign "a" "result", .Assign "b" "result", .Return (.site "result")] }

/-- IR of `createCounter` (escape.go lines 93-97): `count := 0; return &count`. -/
def createCounter : Function :=
  { name := "createCounter", params := [],
    locals := [{ name := "count", shape := .scalar, location := 94 }],
    ops := [.AddressOf "count", .Return (.addressOf "count")] }

/-- IR of `makeMultiplier` (escape.go lines 110-115): `multiplier` is captured
by a closure that is returned. -/
def makeMultiplier : Function :=
  { name := "makeMultiplier",
    params := [{ name := "factor", shape := .scalar, location := 110 }],
    locals := [{ name := "multiplier", shape := .scalar, location := 111 }],
    ops := [.Assign "factor" "multiplier", .ClosureCapture "func1" "multiplier",
            .Return (.closure "func1")] }

/-- IR of `startBackgroundTask` (escape.go lines 118-124): `taskID` is captured
by a closure that is spawned. -/
def startBackgroundTask : Function :=
  { name := "startBackgroundTask", params := [],
    locals := [{ name := "taskID", shape := .scalar, location := 119 }],
    ops := [.ClosureCapture "func1" "taskID", .TaskSpawn "func1"] }

/-- IR of `printValue` (escape.go lines 127-130): `value` is passed to
`fmt.Println`, an interface conversion. -/
def printValue : Function :=
  { name := "printValue",
    params := [{ name := "value", shape := .scalar, location := 127 }],
    locals := [],
    ops := [.InterfaceConvert (.site "value")] }

/-- An IR input outside the walkthrough: a function that declares a fixed
aggregate of 32768 bytes, `var table [4096]int64`, and returns `&table`. -/
def newTable : Function :=
  { name := "newTable", params := [],
    locals := [{ name := "table", shape := .aggregate 32768, location := 1 }],
    ops := [.AddressOf "table", .Return (.addressOf "table")] }

/-- An IR input outside the walkthrough, scenario 5 of section 8: a fixed
aggregate of 1,000,000 eight-byte elements that is used only locally. -/
def localTable : Function :=
  { name := "localTable", params := [],
    locals := [{ name := "table", shape := .aggregate 8000000, location := 1 }],
    ops := [] }

/-- The example functions as one program. -/
def walkthrough : Program :=
  { functions := [addNumbers, createCounter, makeMultiplier, startBackgroundTask, printValue] }

/-! ## Specification-level predicates -/
/-- Escaping nodes of a guarded flow graph: sinks escape, and the source of an
edge escapes once its target and its guard (if any) escape. -/
inductive Escapes (edges : List FlowEdge) : Node → Prop
  | sink (k : SinkKind) : Escapes edges (.sink k)
  | edge (e : FlowEdge) : e ∈ edges → Escapes edges e.dst →
      (∀ w, e.guard = some w → Escapes edges w) → Escapes edges e.src

/-- The flow edges present after convergence: unguarded edges and guarded
edges whose guard the solver found escaping. -/
def flowEdges (edges : List FlowEdge) (marks : Marks) : List (Node × Node) :=
  (edges.filter (fun e => guardOk marks e)).map (fun e => (e.src, e.dst))

/-- Reachability along a list of directed edges. -/
inductive Reaches (E : List (Node × Node)) : Node → Node → Prop
  | refl (n : Node) : Reaches E n n
  | step {u v w : Node} : (u, v) ∈ E → Reaches E v w → Reaches E u w

/-- Number of edges whose source is not yet marked: with the worklist length
it bounds the pops still to come. -/
def unmarkedCount (edges : List FlowEdge) (marks : Marks) : Nat :=
  (edges.filter (fun e => (reasonOf marks e.src).isNone)).length

/-- Loop invariant of the worklist solver. -/
structure SolverInv (edges : List FlowEdge) (st : SolverState) : Prop where
  sound : ∀ n q, reasonOf st.marks n = some q → Escapes edges n
  sinks : ∀ k, (reasonOf st.marks (.sink k)).isSome = true
  work : ∀ n ∈ st.work, (reasonOf st.marks n).isSome = true
  closed : ∀ e ∈ edges, (reasonOf st.marks e.dst).isSome = true → guardOk st.marks e = true →
    (reasonOf st.marks e.src).isSome = true ∨ e.dst ∈ st.work ∨ ∃ w, e.guard = some w ∧ w ∈ st.work

end Escape

namespace Conditionals

/-- Claim C1 (evaluation of the code): on a weekend the value handed to the
final `Printf` is 0 for every age and student status, because the weekend
branch adds the 2 dollars to `basePrice` and never assigns `finalPrice`; the
price the rules describe (7 for a child, 9 for a senior, 12 otherwise) is
what `basePrice` holds at that point. -/
theorem ticket_weekend_prints_zero (age : Int) (isStudent : Bool) :
    (ticketPrice age "weekend" isStudent).finalPrice = 0 ∧
    (ticketPrice age "weekend" isStudent).basePrice =
      (if age < 12 then 7 else if age ≥ 65 then 9 else 12) := by
  unfold ticketPrice
  by_cases h1 : age < 12
  · simp [h1]; norm_num
  · by_cases h2 : age ≥ 65
    · simp [h1, h2]; norm_num
    · simp [h1, h2]; norm_num

/-- Claim C2 (evaluation of the code): "Vowel" is printed exactly for the ten
listed vowels, but the consonant "b" falls to the `default` case and is
reported as "Not a letter". -/
theorem vowel_checker_consonant_b :
    (∀ x, vowelChecker x = "Vowel" ↔
      x ∈ ["a", "e", "i", "o", "u", "A", "E", "I", "O", "U"]) ∧
    vowelChecker "b" = "Not a letter" := by
  refine ⟨?_, by decide⟩
  intro x
  unfold vowelChecker
  by_cases h : x ∈ ["a", "e", "i", "o", "u", "A", "E", "I", "O", "U"]
  · simp [h]
  · rw [if_neg h]
    constructor
    · intro h'; exact absurd h' (by decide)
    · intro h'; exact absurd h' h

/-- Claim C3: for the transaction "transfer", when `amount ≤ accountA` the
first balance drops by exactly `amount`, the second rises by exactly `amount`
and their sum is unchanged; when `amount > accountA` both balances are left
as they were. -/
theorem transfer_moves_amount (accountA accountB amount : ℚ) :
    (amount ≤ accountA →
      (bankingTransaction accountA accountB "transfer" amount).accountA = accountA - amount ∧
      (bankingTransaction accountA accountB "transfer" amount).accountB = accountB + amount ∧
      (bankingTransaction accountA accountB "transfer" amount).accountA
        + (bankingTransaction accountA accountB "transfer" amount).accountB
          = accountA + accountB) ∧
    (accountA < amount →
      (bankingTransaction accountA accountB "transfer" amount).accountA = accountA ∧
      (bankingTransaction accountA accountB "transfer" amount).accountB = accountB) := by
  have e1 : ("transfer" = "deposit") = False := by decide
  have e2 : ("transfer" = "withdraw") = False := by decide
  have e3 : ("transfer" = "balance") = False := by decide
  constructor
  · intro h
    simp only [bankingTransaction, e1, e2, e3, if_false, if_true, h]
    refine ⟨trivial, trivial, by ring⟩
  · intro h
    have h' : ¬ amount ≤ accountA := not_le.mpr h
    simp only [bankingTransaction, e1, e2, e3, if_false, if_true, h']
    exact ⟨trivial, trivial⟩

/-- Witness for C3: balances 1000 and 500 with amount 200 become 800 and 700. -/
theorem transfer_moves_amount_witness :
    (200 : ℚ) ≤ 1000 ∧
    (bankingTransaction 1000 500 "transfer" 200).accountA = 800 ∧
    (bankingTransaction 1000 500 "transfer" 200).accountB = 700 := by
  have h200 : (200 : ℚ) ≤ 1000 := by norm_num
  have h := (transfer_moves_amount 1000 500 200).1 h200
  refine ⟨h200, ?_, ?_⟩
  · rw [h.1]; norm_num
  · rw [h.2.1]; norm_num

end Conditionals

namespace Escape

/-! ## Solver lemmas -/
theorem reasonOf_append (a b : Marks) (n : Node) :
    reasonOf (a ++ b) n = (reasonOf a n).or (reasonOf b n) := by
  induction a with
  | nil => simp [reasonOf]
  | cons x xs ih =>
    obtain ⟨m, r⟩ := x
    by_cases h : m = n
    · simp [reasonOf, h]
    · simp [reasonOf, h, ih]

theorem reasonOf_snoc_of_some (a : Marks) (u : Node) (r : SinkKind) (n : Node) (q : SinkKind)
    (h : reasonOf a n = some q) : reasonOf (a ++ [(u, r)]) n = some q := by
  rw [reasonOf_append, h]; rfl

theorem reasonOf_snoc_self (a : Marks) (u : Node) (r : SinkKind)
    (h : reasonOf a u = none) : reasonOf (a ++ [(u, r)]) u = some r := by
  rw [reasonOf_append, h]; simp [reasonOf]

theorem reasonOf_snoc_ne (a : Marks) (u : Node) (r : SinkKind) (n : Node)
    (h : u ≠ n) : reasonOf (a ++ [(u, r)]) n = reasonOf a n := by
  rw [reasonOf_append]
  cases reasonOf a n <;> simp [reasonOf, h]

theorem fires_eq_some {marks : Marks} {v : Node} {e : FlowEdge} {r : SinkKind} :
    fires marks v e = some r ↔
      reasonOf marks e.src = none ∧ (e.dst = v ∨ e.guard = some v) ∧
        guardOk marks e = true ∧ reasonOf marks e.dst = some r := by
  unfold fires
  split
  · rename_i h
    obtain ⟨h1, h2, h3⟩ := h
    rw [Option.isNone_iff_eq_none] at h1
    simp [h1, h2, h3]
  · rename_i h
    constructor
    · intro h'; cases h'
    · rintro ⟨h1, h2, h3, _⟩
      exact absurd ⟨by simp [h1], h2, h3⟩ h

theorem guardOk_mono {a b : Marks} (hab : ∀ n q, reasonOf a n = some q → reasonOf b n = some q)
    {e : FlowEdge} (h : guardOk a e = true) : guardOk b e = true := by
  unfold guardOk at *
  cases hg : e.guard with
  | none => simp
  | some w =>
    simp only [hg] at h ⊢
    obtain ⟨q, hq⟩ := Option.isSome_iff_exists.mp h
    simp [hab w q hq]

theorem relax_marks_mono (v : Node) (es : List FlowEdge) (st : SolverState) (n : Node)
    (q : SinkKind) (h : reasonOf st.marks n = some q) :
    reasonOf (relax v es st).marks n = some q := by
  induction es generalizing st with
  | nil => simpa [relax] using h
  | cons e es ih =>
    unfold relax
    split
    · apply ih; exact reasonOf_snoc_of_some _ _ _ _ _ h
    · exact ih st h

theorem relax_work_sub (v : Node) (es : List FlowEdge) (st : SolverState) (n : Node)
    (h : n ∈ st.work) : n ∈ (relax v es st).work := by
  induction es generalizing st with
  | nil => simpa [relax] using h
  | cons e es ih =>
    unfold relax
    split
    · apply ih; simp [h]
    · exact ih st h

theorem relax_new_in_work (v : Node) (es : List FlowEdge) (st : SolverState) (n : Node)
    (q : SinkKind) (h : reasonOf (relax v es st).marks n = some q) :
    reasonOf st.marks n = some q ∨ n ∈ (relax v es st).work := by
  induction es generalizing st with
  | nil => left; simpa [relax] using h
  | cons e es ih =>
    unfold relax at h ⊢
    split at h
    · rename_i r hf
      rcases ih _ h with h' | h'
      · by_cases hn : e.src = n
        · right; apply relax_work_sub; simp [hn]
        · left; rwa [reasonOf_snoc_ne _ _ _ _ hn] at h'
      · right; exact h'
    · rename_i hf
      exact ih st h

theorem relax_fires (v : Node) (es : List FlowEdge) (st : SolverState) (e : FlowEdge)
    (he : e ∈ es) (hv : e.dst = v ∨ e.guard = some v)
    (hd : (reasonOf st.marks e.dst).isSome = true) (hg : guardOk st.marks e = true) :
    (reasonOf (relax v es st).marks e.src).isSome = true := by
  induction es generalizing st with
  | nil => cases he
  | cons x es ih =>
    have step : ∀ st' : SolverState,
        (∀ n q, reasonOf st.marks n = some q → reasonOf st'.marks n = some q) →
        (e = x → (reasonOf st'.marks e.src).isSome = true) →
        (reasonOf (relax v es st').marks e.src).isSome = true := by
      intro st' hmono hx
      rcases List.mem_cons.mp he with h | h
      · obtain ⟨q, hq⟩ := Option.isSome_iff_exists.mp (hx h)
        simp [relax_marks_mono v es st' _ q hq]
      · apply ih st' h
        · obtain ⟨q, hq⟩ := Option.isSome_iff_exists.mp hd
          simp [hmono _ q hq]
        · exact guardOk_mono hmono hg
    unfold relax
    split
    · rename_i r hf
      apply step
      · intro n q hq; exact reasonOf_snoc_of_some _ _ _ _ _ hq
      · intro hex; subst hex
        rw [reasonOf_snoc_self _ _ _ (fires_eq_some.mp hf).1]; rfl
    · rename_i hf
      apply step st (fun _ _ h => h)
      intro hex; subst hex
      cases hs : reasonOf st.marks e.src with
      | some q => rfl
      | none =>
        exfalso
        obtain ⟨q, hq⟩ := Option.isSome_iff_exists.mp hd
        have : fires st.marks v e = some q := fires_eq_some.mpr ⟨hs, hv, hg, hq⟩
        rw [hf] at this; cases this

theorem relax_sound (edges : List FlowEdge) (v : Node) (es : List FlowEdge) (st : SolverState)
    (hes : ∀ e ∈ es, e ∈ edges)
    (hs : ∀ n q, reasonOf st.marks n = some q → Escapes edges n) :
    ∀ n q, reasonOf (relax v es st).marks n = some q → Escapes edges n := by
  induction es generalizing st with
  | nil => simpa [relax] using hs
  | cons e es ih =>
    have hes' : ∀ x ∈ es, x ∈ edges := fun x hx => hes x (List.mem_cons_of_mem _ hx)
    unfold relax
    split
    · rename_i r hf
      obtain ⟨_, _, hg, hd⟩ := fires_eq_some.mp hf
      apply ih _ hes'
      intro n q hq
      by_cases hn : e.src = n
      · subst hn
        refine Escapes.edge e (hes e (List.mem_cons_self _ _)) (hs _ _ hd) ?_
        intro w hw
        unfold guardOk at hg
        simp only [hw] at hg
        obtain ⟨q', hq'⟩ := Option.isSome_iff_exists.mp hg
        exact hs _ _ hq'
      · rw [reasonOf_snoc_ne _ _ _ _ hn] at hq
        exact hs _ _ hq
    · exact ih st hes' hs

theorem relax_work_marked (v : Node) (es : List FlowEdge) (st : SolverState)
    (hw : ∀ n ∈ st.work, (reasonOf st.marks n).isSome = true) :
    ∀ n ∈ (relax v es st).work, (reasonOf (relax v es st).marks n).isSome = true := by
  induction es generalizing st with
  | nil => simpa [relax] using hw
  | cons e es ih =>
    unfold relax
    split
    · rename_i r hf
      apply ih
      intro n hn
      simp only [List.mem_append, List.mem_singleton] at hn
      rcases hn with hn | hn
      · obtain ⟨q, hq⟩ := Option.isSome_iff_exists.mp (hw n hn)
        simp [reasonOf_snoc_of_some _ _ _ _ _ hq]
      · subst hn
        simp [reasonOf_snoc_self _ _ _ (fires_eq_some.mp hf).1]
    · exact ih st hw

theorem filter_length_le_of_imp {α : Type} (l : List α) (f g : α → Bool)
    (hfg : ∀ x, f x = true → g x = true) :
    (l.filter f).length ≤ (l.filter g).length := by
  induction l with
  | nil => simp
  | cons a l ih =>
    by_cases hf : f a = true
    · simp [List.filter_cons, hf, hfg a hf, ih]
    · by_cases hg : g a = true
      · simp [List.filter_cons, hf, hg]; omega
      · simp [List.filter_cons, hf, hg, ih]

theorem filter_length_lt_of_imp {α : Type} (l : List α) (f g : α → Bool)
    (hfg : ∀ x, f x = true → g x = true) (a : α) (ha : a ∈ l) (hga : g a = true)
    (hfa : f a = false) : (l.filter f).length < (l.filter g).length := by
  induction l with
  | nil => cases ha
  | cons b l ih =>
    rcases List.mem_cons.mp ha with h | h
    · subst h
      have := filter_length_le_of_imp l f g hfg
      simp [List.filter_cons, hga, hfa]; omega
    · have := ih h
      by_cases hf : f b = true
      · simp [List.filter_cons, hf, hfg b hf]; omega
      · by_cases hg : g b = true
        · simp [List.filter_cons, hf, hg]; omega
        · simp [List.filter_cons, hf, hg]; omega

theorem unmarkedCount_snoc_lt (edges : List FlowEdge) (marks : Marks) (e : FlowEdge)
    (r : SinkKind) (he : e ∈ edges) (hsrc : reasonOf marks e.src = none) :
    unmarkedCount edges (marks ++ [(e.src, r)]) < unmarkedCount edges marks := by
  unfold unmarkedCount
  apply filter_length_lt_of_imp _ _ _ _ e he
  · simp [hsrc]
  · simp [reasonOf_snoc_self _ _ _ hsrc]
  · intro x hx
    cases hq : reasonOf marks x.src with
    | none => rfl
    | some q =>
      rw [reasonOf_snoc_of_some _ _ _ _ _ hq] at hx
      cases hx

theorem relax_potential (edges : List FlowEdge) (v : Node) (es : List FlowEdge)
    (st : SolverState) (hes : ∀ e ∈ es, e ∈ edges) :
    (relax v es st).work.length + unmarkedCount edges (relax v es st).marks
      ≤ st.work.length + unmarkedCount edges st.marks := by
  induction es generalizing st with
  | nil => simp [relax]
  | cons e es ih =>
    have hes' : ∀ x ∈ es, x ∈ edges := fun x hx => hes x (List.mem_cons_of_mem _ hx)
    unfold relax
    split
    · rename_i r hf
      have h1 := ih { work := st.work ++ [e.src], marks := st.marks ++ [(e.src, r)] } hes'
      have h2 := unmarkedCount_snoc_lt edges st.marks e r (hes e (List.mem_cons_self _ _))
        (fires_eq_some.mp hf).1
      simp only [List.length_append, List.length_singleton] at h1
      omega
    · exact ih st hes'

theorem solverInv_step (edges : List FlowEdge) (v : Node) (rest : List Node) (marks : Marks)
    (inv : SolverInv edges ⟨v :: rest, marks⟩) :
    SolverInv edges (relax v edges ⟨rest, marks⟩) := by
  have hmono : ∀ n q, reasonOf marks n = some q →
      reasonOf (relax v edges ⟨rest, marks⟩).marks n = some q :=
    fun n q h => relax_marks_mono v edges ⟨rest, marks⟩ n q h
  have hsome : ∀ n, (reasonOf marks n).isSome = true →
      (reasonOf (relax v edges ⟨rest, marks⟩).marks n).isSome = true := by
    intro n h
    obtain ⟨q, hq⟩ := Option.isSome_iff_exists.mp h
    simp [hmono n q hq]
  have hnew : ∀ n, (reasonOf (relax v edges ⟨rest, marks⟩).marks n).isSome = true →
      (reasonOf marks n).isSome = true ∨ n ∈ (relax v edges ⟨rest, marks⟩).work := by
    intro n h
    obtain ⟨q, hq⟩ := Option.isSome_iff_exists.mp h
    rcases relax_new_in_work v edges ⟨rest, marks⟩ n q hq with h' | h'
    · left; simp at h'; simp [h']
    · right; exact h'
  refine ⟨?_, ?_, ?_, ?_⟩
  · exact relax_sound edges v edges ⟨rest, marks⟩ (fun _ h => h) inv.sound
  · intro k; exact hsome _ (inv.sinks k)
  · apply relax_work_marked
    intro n hn
    exact inv.work n (List.mem_cons_of_mem _ hn)
  · intro e he hd hg
    rcases hnew e.dst hd with hd0 | hdw
    · by_cases hg0 : guardOk marks e = true
      · rcases inv.closed e he hd0 hg0 with h | h | ⟨w, hw, hmem⟩
        · left; exact hsome _ h
        · rcases List.mem_cons.mp h with h | h
          · left; exact relax_fires v edges ⟨rest, marks⟩ e he (Or.inl h) hd0 hg0
          · right; left; exact relax_work_sub v edges ⟨rest, marks⟩ _ h
        · rcases List.mem_cons.mp hmem with h | h
          · left
            exact relax_fires v edges ⟨rest, marks⟩ e he (Or.inr (by rw [hw, h])) hd0 hg0
          · right; right; exact ⟨w, hw, relax_work_sub v edges ⟨rest, marks⟩ _ h⟩
      · right; right
        unfold guardOk at hg hg0
        cases hw : e.guard with
        | none => simp [hw] at hg0
        | some w =>
          simp only [hw] at hg hg0
          rcases hnew w hg with h | h
          · exact absurd h hg0
          · exact ⟨w, rfl, h⟩
    · right; left; exact hdw

theorem solveLoop_spec (edges : List FlowEdge) :
    ∀ (n : Nat) (st : SolverState),
      st.work.length + unmarkedCount edges st.marks ≤ n →
      SolverInv edges st →
      ∃ m, solveLoop edges n st = some m ∧
        (∀ x q, reasonOf st.marks x = some q → reasonOf m x = some q) ∧
        (∀ x, (reasonOf m x).isSome = true ↔ Escapes edges x) := by
  intro n
  induction n with
  | zero =>
    intro st hpot inv
    obtain ⟨work, marks⟩ := st
    cases work with
    | nil =>
      refine ⟨marks, by simp [solveLoop], fun _ _ h => h, ?_⟩
      intro x
      constructor
      · intro h
        obtain ⟨q, hq⟩ := Option.isSome_iff_exists.mp h
        exact inv.sound x q hq
      · intro h
        induction h with
        | sink k => exact inv.sinks k
        | edge e he _ _ ihd ihg =>
          have hg : guardOk marks e = true := by
            unfold guardOk
            cases hw : e.guard with
            | none => rfl
            | some w => exact ihg w hw
          rcases inv.closed e he ihd hg with h | h | ⟨w, _, h⟩
          · exact h
          · cases h
          · cases h
    | cons v rest => simp at hpot
  | succ n ih =>
    intro st hpot inv
    obtain ⟨work, marks⟩ := st
    cases work with
    | nil =>
      refine ⟨marks, by simp [solveLoop], fun _ _ h => h, ?_⟩
      intro x
      constructor
      · intro h
        obtain ⟨q, hq⟩ := Option.isSome_iff_exists.mp h
        exact inv.sound x q hq
      · intro h
        induction h with
        | sink k => exact inv.sinks k
        | edge e he _ _ ihd ihg =>
          have hg : guardOk marks e = true := by
            unfold guardOk
            cases hw : e.guard with
            | none => rfl
            | some w => exact ihg w hw
          rcases inv.closed e he ihd hg with h | h | ⟨w, _, h⟩
          · exact h
          · cases h
          · cases h
    | cons v rest =>
      have hp := relax_potential edges v edges ⟨rest, marks⟩ (fun _ h => h)
      simp only [List.length_cons] at hpot
      obtain ⟨m, hm, hmono, hiff⟩ := ih (relax v edges ⟨rest, marks⟩) (by simp only at hp; omega)
        (solverInv_step edges v rest marks inv)
      refine ⟨m, by simpa [solveLoop] using hm, ?_, hiff⟩
      intro x q hq
      exact hmono x q (relax_marks_mono v edges ⟨rest, marks⟩ x q hq)

theorem reasonOf_initial (n : Node) (q : SinkKind) :
    reasonOf initialState.marks n = some q ↔ n = .sink q := by
  cases n with
  | sink k => cases k <;> cases q <;> simp [initialState, allSinks, reasonOf]
  | site fn id => simp [initialState, allSinks, reasonOf]
  | closure fn id => simp [initialState, allSinks, reasonOf]

theorem solverInv_initial (edges : List FlowEdge) : SolverInv edges initialState := by
  refine ⟨?_, ?_, ?_, ?_⟩
  · intro n q h
    rw [(reasonOf_initial n q).mp h]
    exact Escapes.sink q
  · intro k
    simp [(reasonOf_initial (.sink k) k).mpr rfl]
  · intro n hn
    simp only [initialState, List.mem_map] at hn
    obtain ⟨k, _, rfl⟩ := hn
    simp [(reasonOf_initial (.sink k) k).mpr rfl]
  · intro e _ hd _
    right; left
    obtain ⟨q, hq⟩ := Option.isSome_iff_exists.mp hd
    rw [(reasonOf_initial _ q).mp hq]
    cases q <;> simp [initialState, allSinks]

theorem solve_spec (edges : List FlowEdge) :
    ∃ m, solve edges = some m ∧
      (∀ k, reasonOf m (.sink k) = some k) ∧
      (∀ x, (reasonOf m x).isSome = true ↔ Escapes edges x) := by
  have hpot : initialState.work.length + unmarkedCount edges initialState.marks
      ≤ iterationBound edges := by
    have h1 : unmarkedCount edges initialState.marks ≤ edges.length := List.length_filter_le _ _
    have h2 : initialState.work.length = allSinks.length := by simp [initialState]
    unfold iterationBound
    omega
  obtain ⟨m, hm, hmono, hiff⟩ :=
    solveLoop_spec edges (iterationBound edges) initialState hpot (solverInv_initial edges)
  exact ⟨m, hm, fun k => hmono _ _ ((reasonOf_initial (.sink k) k).mpr rfl), hiff⟩

theorem mem_flowEdges {edges : List FlowEdge} {marks : Marks} {u v : Node} :
    (u, v) ∈ flowEdges edges marks ↔
      ∃ e ∈ edges, guardOk marks e = true ∧ e.src = u ∧ e.dst = v := by
  simp [flowEdges, and_assoc]

theorem escapes_iff_reaches (edges : List FlowEdge) (marks : Marks)
    (hiff : ∀ x, (reasonOf marks x).isSome = true ↔ Escapes edges x) (x : Node) :
    Escapes edges x ↔ ∃ k, Reaches (flowEdges edges marks) x (.sink k) := by
  constructor
  · intro h
    induction h with
    | sink k => exact ⟨k, Reaches.refl _⟩
    | edge e he _ hgd ihd _ =>
      obtain ⟨k, hk⟩ := ihd
      refine ⟨k, Reaches.step (mem_flowEdges.mpr ⟨e, he, ?_, rfl, rfl⟩) hk⟩
      unfold guardOk
      cases hw : e.guard with
      | none => rfl
      | some w => exact (hiff w).mpr (hgd w hw)
  · rintro ⟨k, hk⟩
    generalize hy : Node.sink k = y at hk
    induction hk with
    | refl n => subst hy; exact Escapes.sink k
    | step huv _ ih =>
      obtain ⟨e, he, hg, rfl, rfl⟩ := mem_flowEdges.mp huv
      refine Escapes.edge e he (ih hy) ?_
      intro w hw
      unfold guardOk at hg
      simp only [hw] at hg
      exact (hiff w).mp hg

/-! ### Builder lemmas -/

theorem firstUnknownSite_of_wellFormed (p : Program) (h : wellFormed p = true) :
    firstUnknownSite p = none := by
  unfold firstUnknownSite
  simp only [wellFormed, List.all_eq_true, wellFormedFunction, decide_eq_true_eq] at h
  rw [List.findSome?_eq_none_iff]
  intro f hf
  rw [List.find?_eq_none]
  intro s hs
  simp only [List.mem_flatMap] at hs
  obtain ⟨op, hop, hs⟩ := hs
  simpa using h f hf op hop s hs

/-! ## Classifier lemmas -/

theorem createSites_unknown (p : Program) (s : AllocationSite) (hs : s ∈ createSites p) :
    s.classification = .Unknown := by
  simp only [createSites, List.mem_flatMap, List.mem_append, List.mem_map] at hs
  obtain ⟨f, _, ⟨d, _, rfl⟩ | ⟨d, _, rfl⟩⟩ := hs <;> rfl

theorem classifySite_spec (cfg : Config) (marks : Marks) (s : AllocationSite)
    (hs : s.classification = .Unknown) :
    (classifySite marks (sizePolicy cfg s)).owner = s.owner ∧
    (classifySite marks (sizePolicy cfg s)).id = s.id ∧
    (classifySite marks (sizePolicy cfg s)).shape = s.shape ∧
    ((classifySite marks (sizePolicy cfg s)).classification = .Heap ↔
      (reasonOf marks (.site s.owner s.id)).isSome = true ∨ sizeVerdict cfg s.shape = true) ∧
    ((classifySite marks (sizePolicy cfg s)).classification = .Heap ∨
      (classifySite marks (sizePolicy cfg s)).classification = .Stack) ∧
    (∀ k, reasonOf marks (.site s.owner s.id) = some k →
      (classifySite marks (sizePolicy cfg s)).reason = .Sink k) ∧
    (reasonOf marks (.site s.owner s.id) = none → sizeVerdict cfg s.shape = true →
      (classifySite marks (sizePolicy cfg s)).reason = .LargeObject) := by
  have ho : (sizePolicy cfg s).owner = s.owner := by
    unfold sizePolicy; split <;> rfl
  have hi : (sizePolicy cfg s).id = s.id := by
    unfold sizePolicy; split <;> rfl
  by_cases hv : sizeVerdict cfg s.shape = true
  · cases hm : reasonOf marks (.site s.owner s.id) with
    | none => simp [classifySite, ho, hi, hm, sizePolicy, hv]
    | some k => simp [classifySite, ho, hi, hm, sizePolicy, hv]
  · have hv' : sizeVerdict cfg s.shape = false := by simpa using hv
    cases hm : reasonOf marks (.site s.owner s.id) with
    | none => simp [classifySite, ho, hi, hm, sizePolicy, hv', hs]
    | some k => simp [classifySite, ho, hi, hm, sizePolicy, hv', hs]

theorem finalSites_of_solve (cfg : Config) (p : Program) (hwf : wellFormed p = true)
    (marks : Marks) (hm : solve (buildGraph p) = some marks) :
    finalSites cfg p =
      .ok ((createSites p).map (fun s => classifySite marks (sizePolicy cfg s))) := by
  simp [finalSites, hwf, firstUnknownSite_of_wellFormed p hwf, hm]

/-! ## Claims on the engine -/

/-- Claim C4: for every well-formed program IR the solver converges (no
`AnalysisDivergence`), the engine returns one classified site per allocation
site, and each site is `Heap` if and only if it reaches some escape sink
along the flow edges present after convergence or the size policy marked it
`Heap`; every other site is `Stack`, so none is left `Unknown` or
`Indeterminate`. -/
theorem solver_classification (cfg : Config) (p : Program) (hwf : wellFormed p = true) :
    ∃ marks sites,
      solve (buildGraph p) = some marks ∧
      finalSites cfg p = .ok sites ∧
      sites.map (fun s => (s.owner, s.id, s.shape))
        = (createSites p).map (fun s => (s.owner, s.id, s.shape)) ∧
      ∀ s ∈ sites,
        (s.classification = .Heap ↔
          (∃ k, Reaches (flowEdges (buildGraph p) marks) (.site s.owner s.id) (.sink k))
            ∨ sizeVerdict cfg s.shape = true) ∧
        (s.classification ≠ .Heap → s.classification = .Stack) := by
  obtain ⟨marks, hm, _, hiff⟩ := solve_spec (buildGraph p)
  refine ⟨marks, _, hm, finalSites_of_solve cfg p hwf marks hm, ?_, ?_⟩
  · rw [List.map_map]
    apply List.map_congr_left
    intro s hs
    obtain ⟨h1, h2, h3, _⟩ := classifySite_spec cfg marks s (createSites_unknown p s hs)
    simp [h1, h2, h3]
  · intro x hx
    obtain ⟨s, hs, rfl⟩ := List.mem_map.mp hx
    obtain ⟨h1, h2, h3, h4, h5, _⟩ := classifySite_spec cfg marks s (createSites_unknown p s hs)
    rw [h1, h2, h3]
    constructor
    · rw [h4, hiff, escapes_iff_reaches (buildGraph p) marks hiff]
    · intro hne
      rcases h5 with h | h
      · exact absurd h hne
      · exact h

/-- Witness for C4 on the program of the walkthrough's example functions. -/
theorem solver_classification_witness :
    wellFormed walkthrough = true ∧
    ∃ marks sites,
      solve (buildGraph walkthrough) = some marks ∧
      finalSites defaultConfig walkthrough = .ok sites ∧
      sites.map (fun s => (s.owner, s.id, s.shape))
        = (createSites walkthrough).map (fun s => (s.owner, s.id, s.shape)) ∧
      ∀ s ∈ sites,
        (s.classification = .Heap ↔
          (∃ k, Reaches (flowEdges (buildGraph walkthrough) marks)
              (.site s.owner s.id) (.sink k))
            ∨ sizeVerdict defaultConfig s.shape = true) ∧
        (s.classification ≠ .Heap → s.classification = .Stack) :=
  ⟨by decide, solver_classification defaultConfig walkthrough (by decide)⟩

/-- Evaluation of the engine on two large aggregates: `localTable`, used only
locally, is reported by the size policy (`LargeObject`, scenario 5), while
`newTable`, whose address is returned, is reported via flow (`Caller`). -/
theorem large_aggregate_reports :
    analyze defaultConfig { functions := [localTable] } =
      .ok [{ function_name := "localTable", site_name := "table", classification := .Heap,
             reason := .LargeObject, source_location := 1,
             message := "large object, heap-allocated" }] ∧
    analyze defaultConfig { functions := [newTable] } =
      .ok [{ function_name := "newTable", site_name := "table", classification := .Heap,
             reason := .Sink .Caller, source_location := 1,
             message := "moved to heap: table" }] :=
  ⟨by rfl, by rfl⟩

end Escape
